import Mathlib

/-!
Verification of the OpenAI chat-completions client adapter
(`pkg/llm/completions`, file `src/unnamed/part_001`).

The Go client translates a completion request to the provider's wire
schema, issues the HTTP call, detects whether the body is one buffered
JSON document or an SSE token stream, reconstructs the response from the
chosen path, and publishes progress events inline.  The embedding below
follows `Client.complete` line by line; machine structures keep the Go
field names (ported to lowerCamelCase) and one structure per Go type.
JSON decoding (`json.Unmarshal`) is external library code and is
abstracted as a decoder argument `String → Option _`; logging has no
observable effect on the returned data and is not modelled.
-/

namespace Completions

/-- Wire shape of one tool-call function payload (Go `FunctionCall`
with fields `Name`, `Arguments`). -/
structure FunctionCall where
  name : String
  arguments : String
deriving Repr, DecidableEq, Inhabited

/-- One complete tool call in a response message (Go `ToolCall` with
fields `ID`, `Type`, `Function`). -/
structure ToolCall where
  id : String
  type : String
  function : FunctionCall
deriving Repr, DecidableEq, Inhabited

/-- Message content wrapper; the client reads and writes only the
optional `Text` pointer (Go `Content` with field `Text *string`). -/
structure MsgContent where
  text : Option String
deriving Repr, DecidableEq, Inhabited

/-- An assembled chat message (Go `Message`): role, content, ordered
tool calls, optional refusal. -/
structure Message where
  role : String
  content : MsgContent
  toolCalls : List ToolCall := []
  refusal : Option String := none
deriving Repr, DecidableEq, Inhabited

/-- Usage summary.  The client only copies it whole (last write wins),
so its fields are opaque here. -/
structure Usage where
  raw : String
deriving Repr, DecidableEq, Inhabited

/-- One choice of a (possibly reconstructed) response (Go `Choice`):
index, optional message pointer, optional finish reason. -/
structure Choice where
  index : Nat
  message : Option Message := none
  finishReason : Option String := none
deriving Repr, DecidableEq, Inhabited

/-- The provider response (Go `Response`).  Field defaults are Go zero
values. -/
structure Response where
  id : String := ""
  object : String := ""
  created : Int := 0
  model : String := ""
  systemFingerprint : String := ""
  choices : List Choice := []
  usage : Option Usage := none
deriving Repr, DecidableEq, Inhabited

/-- A tool-call fragment inside a streaming delta (Go delta `ToolCall`
with optional `Index *int`). -/
structure DeltaToolCall where
  index : Option Nat := none
  id : String := ""
  type : String := ""
  function : FunctionCall := { name := "", arguments := "" }
deriving Repr, DecidableEq, Inhabited

/-- Incremental fields of one choice in one chunk (Go `Delta`).
`toolCalls := none` models a nil slice. -/
structure Delta where
  role : String := ""
  content : Option String := none
  toolCalls : Option (List DeltaToolCall) := none
  refusal : Option String := none
deriving Repr, DecidableEq, Inhabited

/-- One choice of a streaming chunk (Go `StreamChunk` choice): a delta
on the normal path, or — the Azure quirk — a complete message instead. -/
structure ChunkChoice where
  index : Nat
  delta : Option Delta := none
  message : Option Message := none
  finishReason : Option String := none
deriving Repr, DecidableEq, Inhabited

/-- One decoded SSE event (Go `StreamChunk`). -/
structure StreamChunk where
  id : String := ""
  created : Int := 0
  model : String := ""
  systemFingerprint : String := ""
  choices : List ChunkChoice := []
  usage : Option Usage := none
deriving Repr, DecidableEq, Inhabited

/-- Content payload of a progress item (Go `mcp.Content` as used here:
`Type` is always "text"). -/
structure MCPContent where
  type : String
  text : String
deriving Repr, DecidableEq, Inhabited

/-- Tool-call payload of a progress item (Go `types.ToolCall`). -/
structure ProgToolCall where
  callID : String
  name : String
  arguments : String
deriving Repr, DecidableEq, Inhabited

/-- One progress item (Go `types.CompletionItem`).  The Go field
`Partial` is rendered `part` here. -/
structure CompletionItem where
  id : String
  part : Bool
  hasMore : Bool
  content : Option MCPContent := none
  toolCall : Option ProgToolCall := none
deriving Repr, DecidableEq, Inhabited

/-- One progress event (Go `types.CompletionProgress`). -/
structure CompletionProgress where
  model : String
  agent : String
  messageID : String
  item : CompletionItem
deriving Repr, DecidableEq, Inhabited

/-- Stream options of the wire request (Go `StreamOptions`). -/
structure StreamOptions where
  includeUsage : Bool
deriving Repr, DecidableEq, Inhabited

/-- The provider wire request (Go `Request`), restricted to the two
fields `Client.complete` mutates (source lines 72-73); the remaining
wire fields are untouched by the client and summarized as `payload`. -/
structure Request where
  stream : Bool := false
  streamOptions : Option StreamOptions := none
  payload : String := ""
deriving Repr, DecidableEq, Inhabited

/-- Source lines 72-73: `req.Stream = true` and
`req.StreamOptions = &StreamOptions{IncludeUsage: true}`, applied
unconditionally before the request is marshaled and sent. -/
def wireRequest (req : Request) : Request :=
  { req with stream := true, streamOptions := some { includeUsage := true } }

/-- Source lines 132 and 246: `fmt.Sprintf("chatcmpl-%d", time.Now().UnixNano())`;
the clock value is threaded in as `now`. -/
def syntheticId (now : Int) : String :=
  "chatcmpl-" ++ toString now

/-- Character-list prefix test.  Models Go's `strings.HasPrefix` (a
byte-prefix test; on the ASCII markers used by the client the two
coincide). -/
def charPre : List Char → List Char → Bool
  | [], _ => true
  | _ :: _, [] => false
  | a :: as, b :: bs => a == b && charPre as bs

/-- `strings.HasPrefix(line, "data: ")` (source lines 114 and 190). -/
def hasDataMarker (line : String) : Bool :=
  charPre "data: ".data line.data

/-- Dropping the first `n` characters; with `n = 6` this is
`strings.TrimPrefix(line, "data: ")` on a line that passed
`hasDataMarker` (source line 194). -/
def dropN (s : String) (n : Nat) : String :=
  String.mk (s.data.drop n)

/-- The first `n` characters; models the 20-byte `Peek` of the format
detector (source line 108). -/
def takeN (s : String) (n : Nat) : String :=
  String.mk (s.data.take n)

/-- `strings.TrimSpace` (source lines 114 and 195): strip whitespace
from both ends. -/
def trimWs (s : String) : String :=
  String.mk
    (((s.data.dropWhile Char.isWhitespace).reverse.dropWhile
      Char.isWhitespace).reverse)

/-- The line splitting of `bufio.Scanner` with `ScanLines` (source
lines 180, 186): split on newlines, dropping one carriage return left
at the end of a line. -/
def dropCR (l : List Char) : List Char :=
  if l.getLast? = some '\r' then l.dropLast else l

/-- Splits a body into its lines (accumulator-style; `acc` holds the
current line reversed). -/
def splitLinesAux : List Char → List Char → List String
  | acc, [] => [String.mk (dropCR acc.reverse)]
  | acc, c :: cs =>
    if c = '\n' then String.mk (dropCR acc.reverse) :: splitLinesAux [] cs
    else splitLinesAux (c :: acc) cs

def splitLines (s : String) : List String :=
  splitLinesAux [] s.data

/-- State of the streaming loop (source lines 179-184): the response
being reconstructed, the `initialized` flag (rendered `inited`), the
tool-call accumulator map, and the trace of progress events delivered to
the sink so far.  The Go `map[int]*ToolCall` is modelled as an
association list with pairwise-distinct keys kept in insertion order;
theorems about its conversion quantify over the entry order, covering
Go's arbitrary map iteration order. -/
structure LoopState where
  resp : Response
  inited : Bool
  toolCalls : List (Nat × ToolCall)
  events : List CompletionProgress
deriving Repr, DecidableEq, Inhabited

/-- Modelled from the spec: `progress.Send` (package `pkg/llm/progress`,
not among the visible sources) dispatches the event to the external sink
when a continuation token is configured and is a no-op otherwise
(spec section 4.6).  The sink is the `events` trace of the loop state. -/
def sendProgress (token : Option String) (st : LoopState)
    (e : CompletionProgress) : LoopState :=
  match token with
  | none => st
  | some _ => { st with events := st.events ++ [e] }

/-- Lookup in the tool-call accumulator (Go `toolCalls[index]` read /
`_, exists := toolCalls[index]`). -/
def tcLookup (m : List (Nat × ToolCall)) (k : Nat) : Option ToolCall :=
  (m.find? (fun p => p.1 == k)).map (fun p => p.2)

/-- Argument append on the entry stored under key `k` (source line 345:
`toolCalls[index].Function.Arguments += toolCall.Function.Arguments`). -/
def tcAppendArgs (m : List (Nat × ToolCall)) (k : Nat) (frag : String) :
    List (Nat × ToolCall) :=
  m.map (fun p =>
    if p.1 = k then
      (p.1, { p.2 with function :=
        { p.2.function with arguments := p.2.function.arguments ++ frag } })
    else p)

/-- Merging one tool-call fragment into the accumulator (source lines
334-346): first sighting of an index stores identifier, type and
function wholesale; a later sighting appends the argument fragment. -/
def mergeFragment (m : List (Nat × ToolCall)) (index : Nat)
    (tc : DeltaToolCall) : List (Nat × ToolCall) :=
  match tcLookup m index with
  | none =>
    m ++ [(index,
      { id := tc.id, type := tc.type,
        function := { name := tc.function.name,
                      arguments := tc.function.arguments } })]
  | some _ => tcAppendArgs m index tc.function.arguments

/-- In-place update of the choice stored at a list position, mirroring
Go's `resp.Choices[i].f = v` (the caller has bounds-checked `i`). -/
def modifyChoice : List Choice → Nat → (Choice → Choice) → List Choice
  | [], _, _ => []
  | c :: cs, 0, f => f c :: cs
  | c :: cs, Nat.succ n, f => c :: modifyChoice cs n f

/-- The `for i, toolCall := range delta.ToolCalls` loop (source lines
329-366): each fragment is merged into the accumulator under its
position index (the loop counter when the fragment carries no explicit
index), then a partial progress event carrying only the new argument
fragment is sent — but only when the accumulated response identifier is
non-empty and a progress token is configured (line 349). -/
def processToolFragments (agent : String) (token : Option String)
    (isFinished : Bool) : LoopState → Nat → List DeltaToolCall → LoopState
  | st, _, [] => st
  | st, i, tc :: rest =>
    let index := tc.index.getD i
    let m := mergeFragment st.toolCalls index tc
    let entry := (tcLookup m index).getD default
    let st := { st with toolCalls := m }
    let st :=
      if st.resp.id ≠ "" ∧ token.isSome then
        sendProgress token st
          { model := st.resp.model, agent := agent, messageID := st.resp.id,
            item := { id := st.resp.id ++ "-t-" ++ toString index,
                      part := true, hasMore := !isFinished,
                      toolCall := some { callID := entry.id,
                                         name := entry.function.name,
                                         arguments := tc.function.arguments } } }
      else st
    processToolFragments agent token isFinished st (i + 1) rest

/-- Processing of one per-choice update of a chunk (source lines
231-378).  Out-of-range choice indices are ignored (line 232).  When the
delta is absent but a complete message is present — the Azure quirk,
lines 240-287 — the message is copied wholesale, the identifier is
synthesized if still empty, and non-partial events are sent for the text
and each tool call; the quirk branch then `continue`s, skipping the
finish-reason and refusal handling.  The normal path handles role,
content, tool-call fragments, finish reason and refusal in that order.
(Updates through `Option.map` leave a nil message unchanged; the shell
created at initialization always carries a message, so the Go nil
dereference cannot occur on any state reachable from `initState`.) -/
def processChoice (agent : String) (token : Option String) (now : Int)
    (st : LoopState) (choice : ChunkChoice) : LoopState :=
  if choice.index ≥ st.resp.choices.length then st
  else
    match choice.delta with
    | none =>
      match choice.message with
      | none => st
      | some msg =>
        let st := { st with resp := { st.resp with
          choices := modifyChoice st.resp.choices choice.index
            (fun c => { c with message := some msg }) } }
        let st :=
          if st.resp.id = "" then
            { st with resp := { st.resp with id := syntheticId now } }
          else st
        let st :=
          match token, msg.content.text with
          | some _, some t =>
            sendProgress token st
              { model := st.resp.model, agent := agent,
                messageID := st.resp.id,
                item := { id := st.resp.id ++ "-" ++ toString choice.index,
                          part := false, hasMore := false,
                          content := some { type := "text", text := t } } }
          | _, _ => st
        (msg.toolCalls.enum.map (fun p =>
          ({ model := st.resp.model, agent := agent, messageID := st.resp.id,
             item := { id := st.resp.id ++ "-t-" ++ toString p.1,
                       part := false, hasMore := false,
                       toolCall := some { callID := p.2.id,
                                          name := p.2.function.name,
                                          arguments := p.2.function.arguments } } }
            : CompletionProgress))).foldl (sendProgress token) st
    | some delta =>
      let isFinished := choice.finishReason.isSome
      let st :=
        if delta.role ≠ "" then
          { st with resp := { st.resp with
            choices := modifyChoice st.resp.choices choice.index
              (fun c =>
                { c with message :=
                    c.message.map (fun m => { m with role := delta.role }) }) } }
        else st
      let st :=
        match delta.content with
        | none => st
        | some frag =>
          let st := { st with resp := { st.resp with
            choices := modifyChoice st.resp.choices choice.index
              (fun c =>
                { c with message :=
                    c.message.map (fun m =>
                      { m with content :=
                          { text :=
                              some ((m.content.text.getD "") ++ frag) } }) }) } }
          if st.resp.id ≠ "" ∧ token.isSome then
            sendProgress token st
              { model := st.resp.model, agent := agent,
                messageID := st.resp.id,
                item := { id := st.resp.id ++ "-" ++ toString choice.index,
                          part := true, hasMore := !isFinished,
                          content := some { type := "text", text := frag } } }
          else st
      let st := processToolFragments agent token isFinished st 0
        (delta.toolCalls.getD [])
      let st :=
        match choice.finishReason with
        | some fr =>
          { st with resp := { st.resp with
            choices := modifyChoice st.resp.choices choice.index
              (fun c => { c with finishReason := some fr }) } }
        | none => st
      match delta.refusal with
      | some r =>
        { st with resp := { st.resp with
          choices := modifyChoice st.resp.choices choice.index
            (fun c =>
              { c with message :=
                  c.message.map (fun m => { m with refusal := some r }) }) } }
      | none => st

/-- Processing of one decoded chunk (source lines 207-378): initialize
the response shell from the first chunk (a single pre-created choice at
index 0 with an empty assistant message), backfill the identifier from a
later chunk if still empty, let a usage summary overwrite the
accumulated one, then fold over the chunk's choices. -/
def processChunk (agent : String) (token : Option String) (now : Int)
    (st : LoopState) (chunk : StreamChunk) : LoopState :=
  let st :=
    if !st.inited then
      { st with
        resp := { id := chunk.id, object := "chat.completion",
                  created := chunk.created, model := chunk.model,
                  systemFingerprint := chunk.systemFingerprint,
                  choices := [{ index := 0,
                                message := some { role := "assistant",
                                                  content := { text := none } } }],
                  usage := none },
        inited := true }
    else st
  let st :=
    if st.resp.id = "" ∧ chunk.id ≠ "" then
      { st with resp := { st.resp with id := chunk.id } }
    else st
  let st :=
    match chunk.usage with
    | some u => { st with resp := { st.resp with usage := some u } }
    | none => st
  chunk.choices.foldl (processChoice agent token now) st

/-- A sequence of already-decoded chunks fed through the loop. -/
def runChunks (agent : String) (token : Option String) (now : Int)
    (st : LoopState) (chunks : List StreamChunk) : LoopState :=
  chunks.foldl (processChunk agent token now) st

/-- The SSE line loop (source lines 186-205): lines without the
`data: ` marker are skipped, the prefix is stripped and the payload
trimmed, the `[DONE]` sentinel breaks the loop, an undecodable payload
is logged and skipped, and a decoded chunk is processed. -/
def runLines (decode : String → Option StreamChunk) (agent : String)
    (token : Option String) (now : Int) :
    LoopState → List String → LoopState
  | st, [] => st
  | st, line :: rest =>
    if hasDataMarker line then
      let d := trimWs (dropN line 6)
      if d = "[DONE]" then st
      else
        match decode d with
        | none => runLines decode agent token now st rest
        | some chunk =>
          runLines decode agent token now
            (processChunk agent token now st chunk) rest
    else runLines decode agent token now st rest

/-- The loop state before the first line (source lines 179-184): a zero
`Response`, `initialized` false, an empty accumulator, no events. -/
def initState : LoopState :=
  { resp := {}, inited := false, toolCalls := [], events := [] }

/-- The element-wise slice fill of the finalization (source lines
388-390): each accumulator entry is written at its position index into a
slice pre-sized to the number of entries; `none` models the Go runtime
out-of-range panic. -/
def setToolCalls : List ToolCall → List (Nat × ToolCall) → Option (List ToolCall)
  | acc, [] => some acc
  | acc, (i, tc) :: rest =>
    if i < acc.length then setToolCalls (acc.set i tc) rest else none

/-- Streaming finalization (source lines 386-391): when the accumulator
is non-empty, its entries are converted into a slice sized by the entry
count and stored on choice 0's message.  `none` models the Go panics on
an out-of-range index, an empty choice list, or a nil message. -/
def finalize (st : LoopState) : Option Response :=
  if st.toolCalls.length = 0 then some st.resp
  else
    match st.resp.choices,
          setToolCalls (List.replicate st.toolCalls.length default)
            st.toolCalls with
    | c :: cs, some l =>
      match c.message with
      | some msg =>
        some { st.resp with choices :=
          { c with message := some { msg with toolCalls := l } } :: cs }
      | none => none
    | _, _ => none

/-- The whole streaming path on a list of body lines: run the loop from
the fresh state, then finalize; paired with the event trace. -/
def streamFromLines (decode : String → Option StreamChunk) (agent : String)
    (token : Option String) (now : Int) (bodyLines : List String) :
    Option Response × List CompletionProgress :=
  let st := runLines decode agent token now initState bodyLines
  (finalize st, st.events)

/-- The buffered path after a successful decode (source lines 130-175):
synthesize the identifier if empty, then — with a progress token
configured and at least one choice — emit one non-partial event for the
first choice's text (when message and text are present) and one
non-partial event per tool call.  (The Go tool-call loop dereferences
`choice.Message` unconditionally; a nil message is rendered as no
events, the branch being unreachable for decoded bodies with a message.) -/
def bufferedPath (agent : String) (token : Option String) (now : Int)
    (resp : Response) : Response × List CompletionProgress :=
  let resp := if resp.id = "" then { resp with id := syntheticId now } else resp
  let events :=
    match token, resp.choices with
    | some _, choice :: _ =>
      let contentEvs : List CompletionProgress :=
        match choice.message with
        | some msg =>
          match msg.content.text with
          | some t =>
            [{ model := resp.model, agent := agent, messageID := resp.id,
               item := { id := resp.id ++ "-content", part := false,
                         hasMore := false,
                         content := some { type := "text", text := t } } }]
          | none => []
        | none => []
      let toolEvs : List CompletionProgress :=
        match choice.message with
        | some msg =>
          msg.toolCalls.enum.map (fun p =>
            { model := resp.model, agent := agent, messageID := resp.id,
              item := { id := resp.id ++ "-t-" ++ toString p.1,
                        part := false, hasMore := false,
                        toolCall := some { callID := p.2.id,
                                           name := p.2.function.name,
                                           arguments := p.2.function.arguments } } })
        | none => []
      contentEvs ++ toolEvs
    | _, _ => []
  (resp, events)

/-- The format detector (source lines 106-114): peek the first 20 bytes
of the body and test whether the whitespace-trimmed prefix starts with
the SSE marker. -/
def detectSSE (body : String) : Bool :=
  hasDataMarker (trimWs (takeN body 20))

/-- The body-handling tail of `Client.complete` (source lines 106-399)
for a successful HTTP status: detect the format, then either run the
streaming loop over the body's lines or decode the whole body as one
JSON response (failing the call on malformed JSON).  The peek is
non-destructive: both branches consume the entire body. -/
def completeBody (decodeResp : String → Option Response)
    (decode : String → Option StreamChunk) (agent : String)
    (token : Option String) (now : Int) (body : String) :
    Except String (Response × List CompletionProgress) :=
  if detectSSE body then
    let st := runLines decode agent token now initState (splitLines body)
    match finalize st with
    | some r => .ok (r, st.events)
    | none => .error "index out of range"
  else
    match decodeResp body with
    | none => .error "failed to decode complete response"
    | some r => .ok (bufferedPath agent token now r)

/-! Concrete inputs and run builders used by the claims below. -/

/-- The last value written under key `k` when the entries are replayed
left to right (used to describe `setToolCalls`). -/
def lastWrite (entries : List (Nat × ToolCall)) (k : Nat) : Option ToolCall :=
  (entries.reverse.find? (fun p => p.1 == k)).map (fun p => p.2)

/-- A well-formed chunk carrying one content fragment for choice 0. -/
def mkContentChunk (cid : String) (cr : Int) (mo fp frag : String)
    (fr : Option String) : StreamChunk :=
  { id := cid, created := cr, model := mo, systemFingerprint := fp,
    choices := [⟨0, some { content := some frag }, none, fr⟩] }

/-- A chunk carrying one tool-call fragment for choice 0 at position
index `k`. -/
def tcFragChunk (cid : String) (k : Nat) (tid ty nm args : String) :
    StreamChunk :=
  { id := cid,
    choices := [⟨0,
      some { toolCalls :=
               some [{ index := some k, id := tid, type := ty,
                       function := { name := nm, arguments := args } }] },
      none, none⟩] }

/-- An Azure-quirk chunk: choice 0 carries a complete message and no
delta. -/
def quirkChunk (cid : String) (cr : Int) (mo fp : String) (m : Message)
    (fr : Option String) : StreamChunk :=
  { id := cid, created := cr, model := mo, systemFingerprint := fp,
    choices := [⟨0, none, some m, fr⟩] }

/-- The run the spec calls equivalent to the quirk chunk: the same
role, text, tool calls and finish reason delivered as one ordinary
delta (each tool call as a full-argument fragment at its own position
index).  This definition follows the claim's words, for comparison with
the quirk path of the source. -/
def deltaEquivChunk (cid : String) (cr : Int) (mo fp : String) (m : Message)
    (fr : Option String) : StreamChunk :=
  { id := cid, created := cr, model := mo, systemFingerprint := fp,
    choices := [⟨0,
      some { role := m.role, content := m.content.text,
             toolCalls :=
               some (m.toolCalls.enum.map (fun p =>
                 { index := some p.1, id := p.2.id, type := p.2.type,
                   function := p.2.function })),
             refusal := m.refusal },
      none, fr⟩] }

/-- Decoder for the identifier counterexample: one valid chunk whose
identifier is empty. -/
def c1decode : String → Option StreamChunk := fun s =>
  if s = "x" then
    some { id := "",
           choices := [⟨0, some { content := some "hi" }, none, none⟩] }
  else none

/-- Decoder delivering the four interleaved tool-call fragments of the
spec's example (indices 0, 1, 0, 1). -/
def c2decode : String → Option StreamChunk := fun s =>
  if s = "t1" then some (tcFragChunk "sid" 0 "call0" "function" "f" "\x7b\"a\":")
  else if s = "t2" then some (tcFragChunk "" 1 "call1" "function" "g" "\x7b\"b\":")
  else if s = "t3" then some (tcFragChunk "" 0 "" "" "" "1\x7d")
  else if s = "t4" then some (tcFragChunk "" 1 "" "" "" "2\x7d")
  else none

/-- The message of the quirk counterexample. -/
def quirkMsg : Message :=
  { role := "assistant", content := { text := some "hi" } }

/-- A quirk message with an empty role: the quirk path copies the empty
role verbatim, while a delta run cannot overwrite the pre-created
assistant role with an empty one. -/
def quirkMsgNoRole : Message :=
  { role := "", content := { text := some "hi" } }

/-- An already-initialized loop state with an empty identifier and the
pre-created choice 0, as left by a first chunk without an identifier. -/
def stNoId : LoopState :=
  { resp := { choices := [{ index := 0,
                            message := some { role := "assistant",
                                              content := { text := none } } }] },
    inited := true, toolCalls := [], events := [] }

/-- A chunk that carries an identifier together with an ordinary
content delta for choice 0. -/
def idDeltaChunk : StreamChunk :=
  { id := "id9",
    choices := [⟨0, some { content := some "x" }, none, none⟩] }

/-- First chunk of the empty-identifier progress run: no identifier, one
content fragment and one tool-call fragment. -/
def c10chunk1 (cr : Int) (mo fp f1 ta1 : String) : StreamChunk :=
  { id := "", created := cr, model := mo, systemFingerprint := fp,
    choices := [⟨0,
      some { content := some f1,
             toolCalls :=
               some [{ index := some 0, id := "call0", type := "function",
                       function := { name := "fn", arguments := ta1 } }] },
      none, none⟩] }

/-- Second chunk of that run: carries the identifier, a second content
fragment and a continuation fragment for the same tool call. -/
def c10chunk2 (id2 f2 ta2 : String) : StreamChunk :=
  { id := id2,
    choices := [⟨0,
      some { content := some f2,
             toolCalls :=
               some [{ index := some 0,
                       function := { name := "", arguments := ta2 } }] },
      none, none⟩] }

/-- A decoder with a single known payload, for witnesses. -/
def simpleDecode : String → Option StreamChunk := fun s =>
  if s = "ok" then some (mkContentChunk "wid" 0 "m" "f" "x" none) else none

/-- Decoder delivering the three content fragments of the spec's
example, the first chunk carrying a non-empty identifier and the last
a finish reason. -/
def c4decode : String → Option StreamChunk := fun s =>
  if s = "a" then some (mkContentChunk "id4" 0 "m" "f" "Hel" none)
  else if s = "b" then some (mkContentChunk "" 0 "m" "f" "lo" none)
  else if s = "c" then some (mkContentChunk "" 0 "m" "f" " world" (some "stop"))
  else none

/-- A sample complete tool call. -/
def tcA : ToolCall :=
  { id := "ia", type := "function", function := { name := "f", arguments := "xa" } }

/-- Another sample complete tool call. -/
def tcB : ToolCall :=
  { id := "ib", type := "function", function := { name := "g", arguments := "xb" } }

/-- A two-entry accumulator stored in reverse key order, exercising
Go's arbitrary map iteration order. -/
def accAB : List (Nat × ToolCall) := [(1, tcB), (0, tcA)]

end Completions

namespace Completions

/-! Helper lemmas. -/

theorem runLines_nil (decode : String → Option StreamChunk) (agent : String)
    (token : Option String) (now : Int) (st : LoopState) :
    runLines decode agent token now st [] = st := rfl

theorem runLines_cons_other (decode : String → Option StreamChunk)
    (agent : String) (token : Option String) (now : Int) (st : LoopState)
    (line : String) (rest : List String) (h : hasDataMarker line = false) :
    runLines decode agent token now st (line :: rest) =
      runLines decode agent token now st rest := by
  simp [runLines, h]

theorem runLines_cons_done (decode : String → Option StreamChunk)
    (agent : String) (token : Option String) (now : Int) (st : LoopState)
    (line : String) (rest : List String) (h1 : hasDataMarker line = true)
    (h2 : trimWs (dropN line 6) = "[DONE]") :
    runLines decode agent token now st (line :: rest) = st := by
  simp [runLines, h1, h2]

theorem runLines_cons_skip (decode : String → Option StreamChunk)
    (agent : String) (token : Option String) (now : Int) (st : LoopState)
    (line : String) (rest : List String) (h1 : hasDataMarker line = true)
    (h2 : trimWs (dropN line 6) ≠ "[DONE]")
    (h3 : decode (trimWs (dropN line 6)) = none) :
    runLines decode agent token now st (line :: rest) =
      runLines decode agent token now st rest := by
  simp [runLines, h1, h2, h3]

theorem runLines_cons_chunk (decode : String → Option StreamChunk)
    (agent : String) (token : Option String) (now : Int) (st : LoopState)
    (line : String) (rest : List String) (c : StreamChunk)
    (h1 : hasDataMarker line = true)
    (h2 : trimWs (dropN line 6) ≠ "[DONE]")
    (h3 : decode (trimWs (dropN line 6)) = some c) :
    runLines decode agent token now st (line :: rest) =
      runLines decode agent token now (processChunk agent token now st c) rest := by
  simp [runLines, h1, h2, h3]

theorem foldl_sendProgress_some (tok : String)
    (evs : List CompletionProgress) :
    ∀ st : LoopState, evs.foldl (sendProgress (some tok)) st =
      { st with events := st.events ++ evs } := by
  induction evs with
  | nil => intro st; simp
  | cons e es ih => intro st; simp [sendProgress, ih]

theorem syntheticId_ne_empty (now : Int) : syntheticId now ≠ "" := by
  intro h
  have hd := congrArg String.data h
  simp [syntheticId, String.data_append] at hd

end Completions

namespace Completions

theorem toolCall_eta (tc : ToolCall) :
    ({ id := tc.id, type := tc.type,
       function := { name := tc.function.name,
                     arguments := tc.function.arguments } } : ToolCall) = tc := rfl

theorem find?_key_unique (p : Nat × ToolCall) :
    ∀ (m : List (Nat × ToolCall)), p ∈ m → (m.map Prod.fst).Nodup →
      m.find? (fun q => q.1 == p.1) = some p := by
  intro m
  induction m with
  | nil => intro hp; simp at hp
  | cons q rest ih =>
    intro hp hnd
    rcases List.mem_cons.mp hp with h | h
    · subst h; simp [List.find?]
    · have hnd' : q.1 ∉ rest.map Prod.fst ∧ (rest.map Prod.fst).Nodup := by
        rw [List.map_cons, List.nodup_cons] at hnd
        exact hnd
      have hne : (q.1 == p.1) = false := by
        simp only [beq_eq_false_iff_ne]
        intro he
        exact hnd'.1 (he ▸ List.mem_map_of_mem Prod.fst h)
      simp [List.find?, hne]
      exact ih h hnd'.2

theorem tcLookup_eq_of_mem (m : List (Nat × ToolCall)) (p : Nat × ToolCall)
    (hp : p ∈ m) (hnd : (m.map Prod.fst).Nodup) :
    tcLookup m p.1 = some p.2 := by
  simp [tcLookup, find?_key_unique p m hp hnd]

theorem lastWrite_eq_of_mem (m : List (Nat × ToolCall)) (p : Nat × ToolCall)
    (hp : p ∈ m) (hnd : (m.map Prod.fst).Nodup) :
    lastWrite m p.1 = some p.2 := by
  have h1 : p ∈ m.reverse := List.mem_reverse.mpr hp
  have h2 : (m.reverse.map Prod.fst).Nodup := by
    rw [List.map_reverse]; exact List.nodup_reverse.mpr hnd
  simp [lastWrite, find?_key_unique p m.reverse h1 h2]

theorem tcLookup_tcAppendArgs (m : List (Nat × ToolCall)) (k : Nat)
    (frag : String) :
    tcLookup (tcAppendArgs m k frag) k =
      (tcLookup m k).map (fun e =>
        { e with function := { e.function with
            arguments := e.function.arguments ++ frag } }) := by
  induction m with
  | nil => rfl
  | cons p rest ih =>
    by_cases h : p.1 = k
    · simp [tcAppendArgs, tcLookup, List.find?, h]
    · have hb : (p.1 == k) = false := by simpa using h
      simp only [tcAppendArgs, List.map_cons] at ih ⊢
      simp [tcLookup, List.find?, hb, h] at ih ⊢
      exact ih

theorem tcLookup_eq_none_of_lt (m : List (Nat × ToolCall)) (k : Nat)
    (h : ∀ p ∈ m, p.1 < k) : tcLookup m k = none := by
  have : m.find? (fun q => q.1 == k) = none := by
    rw [List.find?_eq_none]
    intro x hx
    have := h x hx
    simp only [beq_iff_eq]
    omega
  simp [tcLookup, this]

theorem tcLookup_append_new (m : List (Nat × ToolCall)) (k : Nat)
    (tc : ToolCall) (h : tcLookup m k = none) :
    tcLookup (m ++ [(k, tc)]) k = some tc := by
  have hf : m.find? (fun q => q.1 == k) = none := by
    cases hx : m.find? (fun q => q.1 == k) with
    | none => rfl
    | some q => rw [tcLookup, hx] at h; simp at h
  simp [tcLookup, List.find?_append, hf, List.find?]

theorem lastWrite_cons (i : Nat) (tc : ToolCall)
    (rest : List (Nat × ToolCall)) (k : Nat) :
    lastWrite ((i, tc) :: rest) k =
      (lastWrite rest k).or (if i = k then some tc else none) := by
  simp only [lastWrite, List.reverse_cons, List.find?_append]
  cases h : rest.reverse.find? (fun p => p.1 == k) with
  | none =>
    by_cases hik : i = k
    · simp [h, List.find?, hik]
    · have : (i == k) = false := by simpa using hik
      simp [h, List.find?, this, hik]
  | some q => simp [h]

theorem setToolCalls_sound :
    ∀ (entries : List (Nat × ToolCall)) (l : List ToolCall),
      (∀ p ∈ entries, p.1 < l.length) →
      ∃ l', setToolCalls l entries = some l' ∧ l'.length = l.length ∧
        ∀ k : Nat, l'[k]? = (lastWrite entries k).or l[k]? := by
  intro entries
  induction entries with
  | nil =>
    intro l _
    exact ⟨l, rfl, rfl, fun k => by simp [lastWrite]⟩
  | cons p rest ih =>
    intro l hb
    obtain ⟨i, tc⟩ := p
    have hi : i < l.length := hb (i, tc) (List.mem_cons_self _ _)
    have hb' : ∀ q ∈ rest, q.1 < (l.set i tc).length := by
      intro q hq
      rw [List.length_set]
      exact hb q (List.mem_cons_of_mem _ hq)
    obtain ⟨l', he, hlen, hget⟩ := ih (l.set i tc) hb'
    refine ⟨l', ?_, by rw [hlen, List.length_set], ?_⟩
    · simp [setToolCalls, hi, he]
    · intro k
      rw [hget k, lastWrite_cons, List.getElem?_set]
      cases hlw : lastWrite rest k with
      | some v => simp
      | none =>
        by_cases hik : i = k
        · subst hik; simp [hi]
        · simp [hik]

end Completions

namespace Completions

theorem setToolCalls_enum (tcs : List ToolCall) :
    setToolCalls (List.replicate tcs.length default) tcs.enum = some tcs := by
  have hb : ∀ p ∈ tcs.enum,
      p.1 < (List.replicate tcs.length (default : ToolCall)).length := by
    intro p hp
    rw [List.length_replicate]
    have h1 := List.mem_enum_iff_getElem?.mp hp
    exact (List.getElem?_eq_some.mp h1).1
  obtain ⟨l', he, hlen, hget⟩ := setToolCalls_sound tcs.enum _ hb
  have hl : l' = tcs := by
    apply List.ext_getElem?
    intro k
    rw [hget k]
    by_cases hk : k < tcs.length
    · have hmem : (k, tcs[k]) ∈ tcs.enum :=
        List.mem_enum_iff_getElem?.mpr (by simp [hk])
      have hlw := lastWrite_eq_of_mem tcs.enum (k, tcs[k]) hmem
        (List.nodup_enum_map_fst tcs)
      simp only at hlw
      rw [hlw]
      simp [List.getElem?_eq_getElem hk]
    · have hlw : lastWrite tcs.enum k = none := by
        cases hfind : tcs.enum.reverse.find? (fun p => p.1 == k) with
        | none => simp [lastWrite, hfind]
        | some q =>
          exfalso
          have hq : q ∈ tcs.enum :=
            List.mem_reverse.mp (List.mem_of_find?_eq_some hfind)
          have hqk := List.find?_some hfind
          have h1 := List.mem_enum_iff_getElem?.mp hq
          have h2 : q.1 < tcs.length := (List.getElem?_eq_some.mp h1).1
          have h3 : q.1 = k := by simpa using hqk
          omega
      rw [hlw]
      have h4 : tcs[k]? = none := List.getElem?_eq_none (by omega)
      have h5 : (List.replicate tcs.length (default : ToolCall))[k]? = none :=
        List.getElem?_eq_none (by rw [List.length_replicate]; omega)
      simp [h4, h5]
  rw [hl] at he
  exact he

theorem finalize_enum (resp : Response) (c : Choice) (cs : List Choice)
    (msg : Message) (tcs : List ToolCall) (ind : Bool)
    (evs : List CompletionProgress)
    (hc : resp.choices = c :: cs) (hm : c.message = some msg)
    (hmt : msg.toolCalls = []) :
    finalize { resp := resp, inited := ind, toolCalls := tcs.enum,
               events := evs } =
      some { resp with choices :=
        { c with message := some { msg with toolCalls := tcs } } :: cs } := by
  obtain ⟨rid, rob, rcr, rmo, rfp, rch, rus⟩ := resp
  obtain ⟨ci, cm, cf⟩ := c
  obtain ⟨mr, mc, mtc, mrf⟩ := msg
  simp only at hc hm hmt
  subst hc hm hmt
  cases tcs with
  | nil => simp [finalize]
  | cons t ts =>
    have hconv := setToolCalls_enum (t :: ts)
    simp only [finalize, List.enum_length, List.length_cons]
    simp only [List.length_cons] at hconv
    simp [hconv]

end Completions

namespace Completions

theorem processToolFragments_enum (agent tok : String) (isFin : Bool)
    (tcs : List ToolCall) :
    ∀ (k : Nat) (st : LoopState), st.resp.id ≠ "" →
      (∀ p ∈ st.toolCalls, p.1 < k) →
      processToolFragments agent (some tok) isFin st k
        ((tcs.enumFrom k).map (fun p =>
          ({ index := some p.1, id := p.2.id, type := p.2.type,
             function := p.2.function } : DeltaToolCall))) =
      { st with
        toolCalls := st.toolCalls ++ tcs.enumFrom k,
        events := st.events ++ (tcs.enumFrom k).map (fun p =>
          ({ model := st.resp.model, agent := agent, messageID := st.resp.id,
             item := { id := st.resp.id ++ "-t-" ++ toString p.1,
                       part := true, hasMore := !isFin,
                       toolCall := some { callID := p.2.id,
                                          name := p.2.function.name,
                                          arguments := p.2.function.arguments } } }
            : CompletionProgress)) } := by
  induction tcs with
  | nil => intro k st _ _; simp [processToolFragments]
  | cons tc rest ih =>
    intro k st hid hk
    rw [List.enumFrom_cons]
    simp only [List.map_cons]
    have hnone : tcLookup st.toolCalls k = none := tcLookup_eq_none_of_lt _ _ hk
    have hmerge : mergeFragment st.toolCalls k
        ({ index := some k, id := tc.id, type := tc.type,
           function := tc.function } : DeltaToolCall) =
        st.toolCalls ++ [(k, tc)] := by
      simp [mergeFragment, hnone, toolCall_eta]
    have hentry : tcLookup (st.toolCalls ++ [(k, tc)]) k = some tc :=
      tcLookup_append_new _ _ _ hnone
    have hrec := ih (k + 1)
      { resp := st.resp, inited := st.inited,
        toolCalls := st.toolCalls ++ [(k, tc)],
        events := st.events ++
          [{ model := st.resp.model, agent := agent, messageID := st.resp.id,
             item := { id := st.resp.id ++ "-t-" ++ toString k,
                       part := true, hasMore := !isFin,
                       toolCall := some { callID := tc.id,
                                          name := tc.function.name,
                                          arguments := tc.function.arguments } } }] }
      hid
      (by
        intro p hp
        rcases List.mem_append.mp hp with h | h
        · exact Nat.lt_succ_of_lt (hk p h)
        · have hpk : p = (k, tc) := by simpa using h
          rw [hpk]
          omega)
    rw [processToolFragments]
    simp only [Option.getD_some, hmerge, hentry, sendProgress, hid, ne_eq,
      not_false_eq_true, Option.isSome_some, and_self, if_true, reduceIte]
    rw [hrec]
    simp [List.append_assoc]

end Completions

namespace Completions

/-- C9: for every completion request and every combination of caller
options, the wire request sent to the provider has `stream` set to true
and `stream_options.include_usage` set to true; the caller cannot
disable either (the mutation is unconditional in the input request). -/
theorem c9_stream_forced (req : Request) :
    (wireRequest req).stream = true ∧
    (wireRequest req).streamOptions = some { includeUsage := true } :=
  ⟨rfl, rfl⟩

/-- C1 counterexample: a streaming run whose single chunk carries an
empty identifier returns successfully with an empty identifier — no
synthetic identifier is generated on the streaming normal path, so the
claim is false as stated. -/
theorem c1_counterexample :
    ((streamFromLines c1decode "a" (some "tok") 7
      ["data: x", "data: [DONE]"]).1.map (fun r => r.id)) = some "" := by
  decide

theorem sendProgress_resp (token : Option String) (st : LoopState)
    (e : CompletionProgress) : (sendProgress token st e).resp = st.resp := by
  cases token <;> rfl

theorem foldl_sendProgress_resp (token : Option String) :
    ∀ (l : List CompletionProgress) (st : LoopState),
      (l.foldl (sendProgress token) st).resp = st.resp := by
  intro l
  induction l with
  | nil => intro st; rfl
  | cons e es ih =>
    intro st
    rw [List.foldl_cons, ih, sendProgress_resp]

theorem processToolFragments_resp (agent : String) (token : Option String)
    (isFin : Bool) : ∀ (l : List DeltaToolCall) (st : LoopState) (i : Nat),
    (processToolFragments agent token isFin st i l).resp = st.resp := by
  intro l
  induction l with
  | nil => intro st i; rfl
  | cons tc rest ih =>
    intro st i
    simp only [processToolFragments]
    rw [ih]
    split
    · rw [sendProgress_resp]
    · rfl

theorem processChoice_id (agent : String) (token : Option String) (now : Int)
    (st : LoopState) (choice : ChunkChoice) (h : st.resp.id ≠ "") :
    (processChoice agent token now st choice).resp.id = st.resp.id := by
  obtain ⟨cix, cd, cm, cf⟩ := choice
  by_cases hix : cix ≥ st.resp.choices.length
  · simp [processChoice, hix]
  · cases cd with
    | none =>
      cases cm with
      | none => simp [processChoice, hix]
      | some msg =>
        cases token with
        | none =>
          cases htext : msg.content.text <;>
            simp [processChoice, hix, h, htext, foldl_sendProgress_resp,
              sendProgress]
        | some tk =>
          cases htext : msg.content.text <;>
            simp [processChoice, hix, h, htext, foldl_sendProgress_resp,
              sendProgress]
    | some d =>
      obtain ⟨drole, dcontent, dtools, dref⟩ := d
      cases token <;> cases dcontent <;> cases cf <;> cases dref <;>
        by_cases hrole : drole = "" <;>
          simp [processChoice, hix, h, hrole, processToolFragments_resp,
            sendProgress, foldl_sendProgress_resp]

theorem foldl_processChoice_id (agent : String) (token : Option String)
    (now : Int) : ∀ (cs : List ChunkChoice) (st : LoopState),
    st.resp.id ≠ "" →
    (cs.foldl (processChoice agent token now) st).resp.id = st.resp.id := by
  intro cs
  induction cs with
  | nil => intro st _; rfl
  | cons c cs ih =>
    intro st h
    rw [List.foldl_cons]
    have h1 := processChoice_id agent token now st c h
    rw [ih _ (by rw [h1]; exact h), h1]

/-- C1 (amended): the buffered path always returns a non-empty
identifier, synthesizing one when the body's is empty; on the streaming
path, processing any chunk carrying an identifier while the accumulated
identifier is empty sets the accumulated identifier to the chunk's
(whatever choices the chunk carries), and the quirk path synthesizes an
identifier when it is still empty; but the streaming normal path has no
synthesis at finalization, so a stream whose chunks never carry an
identifier returns successfully with an empty identifier. -/
theorem c1_amended_id_synthesis :
    (∀ (agent : String) (token : Option String) (now : Int) (resp : Response),
      ((bufferedPath agent token now resp).1).id ≠ "") ∧
    (∀ (agent : String) (token : Option String) (now : Int) (st : LoopState)
      (chunk : StreamChunk), st.resp.id = "" → chunk.id ≠ "" →
      (processChunk agent token now st chunk).resp.id = chunk.id) ∧
    (∀ (agent : String) (token : Option String) (now : Int) (st : LoopState)
      (choice : ChunkChoice) (msg : Message),
      st.resp.id = "" → choice.index < st.resp.choices.length →
      choice.delta = none → choice.message = some msg →
      (processChoice agent token now st choice).resp.id = syntheticId now ∧
      (processChoice agent token now st choice).resp.id ≠ "") := by
  refine ⟨?_, ?_, ?_⟩
  · intro agent token now resp
    by_cases h : resp.id = ""
    · simp [bufferedPath, h]
      exact syntheticId_ne_empty now
    · simp [bufferedPath, h]
  · intro agent token now st chunk h2 h3
    cases hin : st.inited with
    | true =>
      cases hu : chunk.usage with
      | none => simp [processChunk, hin, hu, h2, h3, foldl_processChoice_id]
      | some u => simp [processChunk, hin, hu, h2, h3, foldl_processChoice_id]
    | false =>
      cases hu : chunk.usage with
      | none => simp [processChunk, hin, hu, h2, h3, foldl_processChoice_id]
      | some u => simp [processChunk, hin, hu, h2, h3, foldl_processChoice_id]
  · intro agent token now st choice msg hid0 hlt hd hm
    have hge : ¬(choice.index ≥ st.resp.choices.length) := Nat.not_le.mpr hlt
    have hsyn : (processChoice agent token now st choice).resp.id =
        syntheticId now := by
      cases token with
      | none =>
        cases htext : msg.content.text <;>
          simp [processChoice, hd, hm, hge, hid0, htext,
            foldl_sendProgress_resp, sendProgress]
      | some tk =>
        cases htext : msg.content.text <;>
          simp [processChoice, hd, hm, hge, hid0, htext,
            foldl_sendProgress_resp, sendProgress]
    exact ⟨hsyn, by rw [hsyn]; exact syntheticId_ne_empty now⟩

/-- Witness for the amended C1: a buffered response, an id-carrying
chunk whose choice holds an ordinary delta, and a quirk choice on an
identifier-less state. -/
theorem c1_amended_witness :
    ((bufferedPath "a" none 3 {}).1).id ≠ "" ∧
    (processChunk "a" none 0 stNoId idDeltaChunk).resp.id = "id9" ∧
    ((processChoice "a" none 7 stNoId ⟨0, none, some quirkMsg, none⟩).resp.id =
        syntheticId 7 ∧
      (processChoice "a" none 7 stNoId
        ⟨0, none, some quirkMsg, none⟩).resp.id ≠ "") := by
  refine ⟨?_, ?_, ?_⟩
  · exact c1_amended_id_synthesis.1 "a" none 3 {}
  · exact c1_amended_id_synthesis.2.1 "a" none 0 stNoId idDeltaChunk rfl
      (by decide)
  · exact c1_amended_id_synthesis.2.2 "a" none 7 stNoId
      ⟨0, none, some quirkMsg, none⟩ quirkMsg rfl (by decide) rfl rfl

/-- C5: when the accumulator's position indices are exactly
`0 .. n-1` (pairwise distinct, all below the entry count, and every
such position covered), the slice conversion of the finalization
succeeds — every element write is in bounds, so the out-of-range
branch is unreachable — and yields a list of length `n` whose entry at
position `k` is the tool call accumulated under key `k`. -/
theorem c5_dense_conversion (m : List (Nat × ToolCall))
    (hnd : (m.map Prod.fst).Nodup)
    (hlt : ∀ p ∈ m, p.1 < m.length)
    (hall : ∀ k, k < m.length → k ∈ m.map Prod.fst) :
    ∃ l, setToolCalls (List.replicate m.length default) m = some l ∧
      l.length = m.length ∧
      (∀ k, k < m.length → l[k]? = tcLookup m k) ∧
      (∀ p ∈ m, l[p.1]? = some p.2) := by
  have hb : ∀ p ∈ m,
      p.1 < (List.replicate m.length (default : ToolCall)).length := by
    intro p hp
    rw [List.length_replicate]
    exact hlt p hp
  obtain ⟨l, he, hlen, hget⟩ := setToolCalls_sound m _ hb
  refine ⟨l, he, by rw [hlen, List.length_replicate], ?_, ?_⟩
  · intro k hk
    obtain ⟨p, hpm, hpk⟩ := List.mem_map.mp (hall k hk)
    rw [← hpk, hget p.1, lastWrite_eq_of_mem m p hpm hnd,
      tcLookup_eq_of_mem m p hpm hnd]
    simp
  · intro p hp
    rw [hget p.1, lastWrite_eq_of_mem m p hp hnd]
    simp

/-- Witness for C5 on a two-entry accumulator stored in reverse key
order (covering Go's arbitrary map iteration order). -/
theorem c5_witness :
    ((accAB.map Prod.fst).Nodup ∧ (∀ p ∈ accAB, p.1 < accAB.length) ∧
      (∀ k, k < accAB.length → k ∈ accAB.map Prod.fst)) ∧
    (∃ l, setToolCalls (List.replicate accAB.length default) accAB = some l ∧
      l.length = accAB.length ∧
      (∀ k, k < accAB.length → l[k]? = tcLookup accAB k) ∧
      (∀ p ∈ accAB, l[p.1]? = some p.2)) := by
  refine ⟨⟨by decide, by decide, by decide⟩, ?_⟩
  exact c5_dense_conversion accAB (by decide) (by decide) (by decide)

end Completions

namespace Completions

/-- C2: tool-call fragments are merged into the accumulator keyed by
position index — the first fragment seen for an index fixes the entry's
identifier, type and function name (and seeds its arguments), every
later fragment for the same index appends its argument string — and the
four-fragment interleaved example (indices 0, 1, 0, 1) yields a final
tool-call list of length 2 with the reassembled argument strings. -/
theorem c2_fragment_merge :
    (∀ (m : List (Nat × ToolCall)) (idx : Nat) (tc : DeltaToolCall),
      tcLookup m idx = none →
      tcLookup (mergeFragment m idx tc) idx =
        some { id := tc.id, type := tc.type,
               function := { name := tc.function.name,
                             arguments := tc.function.arguments } }) ∧
    (∀ (m : List (Nat × ToolCall)) (idx : Nat) (tc : DeltaToolCall)
      (e : ToolCall), tcLookup m idx = some e →
      tcLookup (mergeFragment m idx tc) idx =
        some { e with function := { e.function with
          arguments := e.function.arguments ++ tc.function.arguments } }) ∧
    ((streamFromLines c2decode "a" (some "tok") 0
      ["data: t1", "data: t2", "data: t3", "data: t4", "data: [DONE]"]).1.map
      (fun r => r.choices.map (fun c => c.message.map (fun m => m.toolCalls)))) =
    some [some [{ id := "call0", type := "function",
                  function := { name := "f", arguments := "\x7b\"a\":1\x7d" } },
                { id := "call1", type := "function",
                  function := { name := "g", arguments := "\x7b\"b\":2\x7d" } }]] := by
  refine ⟨?_, ?_, by decide⟩
  · intro m idx tc h
    simp only [mergeFragment, h]
    exact tcLookup_append_new m idx _ h
  · intro m idx tc e h
    simp only [mergeFragment, h]
    rw [tcLookup_tcAppendArgs, h]
    rfl

/-- Witness for the two conditional parts of C2 at concrete inputs. -/
theorem c2_witness :
    (tcLookup [] 0 = none ∧
      tcLookup (mergeFragment [] 0
        { index := some 0, id := "c1", type := "function",
          function := { name := "n", arguments := "x" } }) 0 =
        some { id := "c1", type := "function",
               function := { name := "n", arguments := "x" } }) ∧
    (tcLookup [(0, tcA)] 0 = some tcA ∧
      tcLookup (mergeFragment [(0, tcA)] 0
        { function := { name := "", arguments := "y" } }) 0 =
        some { tcA with function := { tcA.function with
          arguments := tcA.function.arguments ++ "y" } }) := by
  constructor
  · exact ⟨by decide, c2_fragment_merge.1 [] 0 _ (by decide)⟩
  · exact ⟨by decide, c2_fragment_merge.2.1 [(0, tcA)] 0 _ tcA (by decide)⟩

/-- C6: a data-prefixed line whose trimmed payload is neither the
`[DONE]` sentinel nor decodable JSON is skipped without failing the
call: a stream containing such a line produces exactly the same loop
state — same accumulated response and same emitted events — as the
same stream with that line removed. -/
theorem c6_malformed_line_skipped (decode : String → Option StreamChunk)
    (agent : String) (token : Option String) (now : Int) (bad : String)
    (h1 : hasDataMarker bad = true)
    (h2 : trimWs (dropN bad 6) ≠ "[DONE]")
    (h3 : decode (trimWs (dropN bad 6)) = none) :
    ∀ (pre post : List String) (st : LoopState),
      runLines decode agent token now st (pre ++ bad :: post) =
        runLines decode agent token now st (pre ++ post) := by
  intro pre
  induction pre with
  | nil =>
    intro post st
    simp only [List.nil_append]
    exact runLines_cons_skip decode agent token now st bad post h1 h2 h3
  | cons l pre ih =>
    intro post st
    simp only [List.cons_append]
    cases hl : hasDataMarker l with
    | false =>
      rw [runLines_cons_other decode agent token now st l _ hl,
          runLines_cons_other decode agent token now st l _ hl]
      exact ih post st
    | true =>
      by_cases hd : trimWs (dropN l 6) = "[DONE]"
      · rw [runLines_cons_done decode agent token now st l _ hl hd,
            runLines_cons_done decode agent token now st l _ hl hd]
      · cases hdec : decode (trimWs (dropN l 6)) with
        | none =>
          rw [runLines_cons_skip decode agent token now st l _ hl hd hdec,
              runLines_cons_skip decode agent token now st l _ hl hd hdec]
          exact ih post st
        | some c =>
          rw [runLines_cons_chunk decode agent token now st l _ c hl hd hdec,
              runLines_cons_chunk decode agent token now st l _ c hl hd hdec]
          exact ih post _

/-- Witness for C6: one undecodable line between a valid chunk and the
sentinel leaves the run unchanged. -/
theorem c6_witness :
    (hasDataMarker "data: %%%" = true ∧
      trimWs (dropN "data: %%%" 6) ≠ "[DONE]" ∧
      simpleDecode (trimWs (dropN "data: %%%" 6)) = none) ∧
    runLines simpleDecode "a" (some "tok") 0 initState
        (["data: ok"] ++ "data: %%%" :: ["data: [DONE]"]) =
      runLines simpleDecode "a" (some "tok") 0 initState
        (["data: ok"] ++ ["data: [DONE]"]) := by
  refine ⟨⟨by decide, by decide, by decide⟩, ?_⟩
  exact c6_malformed_line_skipped simpleDecode "a" (some "tok") 0 "data: %%%"
    (by decide) (by decide) (by decide) ["data: ok"] ["data: [DONE]"] initState

/-- C7: once a data-prefixed line whose trimmed payload equals `[DONE]`
is reached, no later line of the body is processed and no further event
is emitted — the run over the remainder equals the run that stops at
the sentinel, whatever lines follow it. -/
theorem c7_done_terminates (decode : String → Option StreamChunk)
    (agent : String) (token : Option String) (now : Int) (dl : String)
    (h1 : hasDataMarker dl = true)
    (h2 : trimWs (dropN dl 6) = "[DONE]") :
    ∀ (pre post : List String) (st : LoopState),
      runLines decode agent token now st (pre ++ dl :: post) =
        runLines decode agent token now st (pre ++ [dl]) := by
  intro pre
  induction pre with
  | nil =>
    intro post st
    simp only [List.nil_append]
    rw [runLines_cons_done decode agent token now st dl post h1 h2,
        runLines_cons_done decode agent token now st dl [] h1 h2]
  | cons l pre ih =>
    intro post st
    simp only [List.cons_append]
    cases hl : hasDataMarker l with
    | false =>
      rw [runLines_cons_other decode agent token now st l _ hl,
          runLines_cons_other decode agent token now st l _ hl]
      exact ih post st
    | true =>
      by_cases hd : trimWs (dropN l 6) = "[DONE]"
      · rw [runLines_cons_done decode agent token now st l _ hl hd,
            runLines_cons_done decode agent token now st l _ hl hd]
      · cases hdec : decode (trimWs (dropN l 6)) with
        | none =>
          rw [runLines_cons_skip decode agent token now st l _ hl hd hdec,
              runLines_cons_skip decode agent token now st l _ hl hd hdec]
          exact ih post st
        | some c =>
          rw [runLines_cons_chunk decode agent token now st l _ c hl hd hdec,
              runLines_cons_chunk decode agent token now st l _ c hl hd hdec]
          exact ih post _

/-- Witness for C7: lines after the sentinel, including further valid
data lines, change nothing. -/
theorem c7_witness :
    (hasDataMarker "data: [DONE]" = true ∧
      trimWs (dropN "data: [DONE]" 6) = "[DONE]") ∧
    runLines simpleDecode "a" (some "tok") 0 initState
        (["data: ok"] ++ "data: [DONE]" :: ["junk", "data: ok"]) =
      runLines simpleDecode "a" (some "tok") 0 initState
        (["data: ok"] ++ ["data: [DONE]"]) := by
  refine ⟨⟨by decide, by decide⟩, ?_⟩
  exact c7_done_terminates simpleDecode "a" (some "tok") 0 "data: [DONE]"
    (by decide) (by decide) ["data: ok"] ["junk", "data: ok"] initState

end Completions

namespace Completions

/-- C8: the streaming path is taken if and only if the
whitespace-trimmed prefix of the first 20 peeked bytes starts with
`data: `; otherwise the whole body (the peek consumes nothing) is
decoded as one JSON response, failing the call on malformed JSON and
otherwise finishing through the buffered path. -/
theorem c8_format_dispatch (decodeResp : String → Option Response)
    (decode : String → Option StreamChunk) (agent : String)
    (token : Option String) (now : Int) (body : String) :
    (detectSSE body = hasDataMarker (trimWs (takeN body 20))) ∧
    (detectSSE body = true →
      completeBody decodeResp decode agent token now body =
        (match finalize
            (runLines decode agent token now initState (splitLines body)) with
         | some r =>
           .ok (r, (runLines decode agent token now initState
             (splitLines body)).events)
         | none => .error "index out of range")) ∧
    (detectSSE body = false → decodeResp body = none →
      completeBody decodeResp decode agent token now body =
        .error "failed to decode complete response") ∧
    (detectSSE body = false → ∀ r, decodeResp body = some r →
      completeBody decodeResp decode agent token now body =
        .ok (bufferedPath agent token now r)) := by
  refine ⟨rfl, ?_, ?_, ?_⟩
  · intro h
    simp [completeBody, h]
  · intro h hr
    simp [completeBody, h, hr]
  · intro h r hr
    simp [completeBody, h, hr]

/-- Witness for C8 on one streaming body and one buffered body for each
decode outcome. -/
theorem c8_witness :
    (detectSSE "data: [DONE]" = true ∧
      completeBody (fun _ => none) simpleDecode "a" none 0 "data: [DONE]" =
        (match finalize (runLines simpleDecode "a" none 0 initState
            (splitLines "data: [DONE]")) with
         | some r =>
           .ok (r, (runLines simpleDecode "a" none 0 initState
             (splitLines "data: [DONE]")).events)
         | none => .error "index out of range")) ∧
    (detectSSE "nope" = false ∧
      completeBody (fun _ => none) simpleDecode "a" none 0 "nope" =
        .error "failed to decode complete response") ∧
    (detectSSE "nope" = false ∧
      completeBody (fun _ => some { id := "rid" }) simpleDecode "a" none 0
          "nope" =
        .ok (bufferedPath "a" none 0 { id := "rid" })) := by
  refine ⟨⟨by decide, ?_⟩, ⟨by decide, ?_⟩, ⟨by decide, ?_⟩⟩
  · exact (c8_format_dispatch (fun _ => none) simpleDecode "a" none 0
      "data: [DONE]").2.1 (by decide)
  · exact (c8_format_dispatch (fun _ => none) simpleDecode "a" none 0
      "nope").2.2.1 (by decide) rfl
  · exact (c8_format_dispatch (fun _ => some { id := "rid" }) simpleDecode "a"
      none 0 "nope").2.2.2 (by decide) { id := "rid" } rfl

/-- C10: on the streaming normal path a partial progress event is
emitted only while the accumulated identifier is non-empty: fragments
of a first chunk with an empty identifier are accumulated (text
appended, tool-call entry created) but produce no event, and after a
second chunk backfills the identifier, the emitted events carry only
the second chunk's fragments — the earlier fragments are never
reported even though they sit in the final text and accumulator. -/
theorem c10_no_events_while_id_empty (agent tok f1 f2 ta1 ta2 id2 mo fp :
    String) (cr : Int) (hid : id2 ≠ "") :
    (processChunk agent (some tok) 0 initState
      (c10chunk1 cr mo fp f1 ta1)).events = [] ∧
    (processChunk agent (some tok) 0 initState
      (c10chunk1 cr mo fp f1 ta1)).resp.choices =
      [{ index := 0,
         message := some { role := "assistant",
                           content := { text := some f1 } },
         finishReason := none }] ∧
    tcLookup (processChunk agent (some tok) 0 initState
      (c10chunk1 cr mo fp f1 ta1)).toolCalls 0 =
      some { id := "call0", type := "function",
             function := { name := "fn", arguments := ta1 } } ∧
    (processChunk agent (some tok) 0
      (processChunk agent (some tok) 0 initState (c10chunk1 cr mo fp f1 ta1))
      (c10chunk2 id2 f2 ta2)).events =
      [{ model := mo, agent := agent, messageID := id2,
         item := { id := id2 ++ "-" ++ toString (0 : Nat), part := true,
                   hasMore := true,
                   content := some { type := "text", text := f2 } } },
       { model := mo, agent := agent, messageID := id2,
         item := { id := id2 ++ "-t-" ++ toString (0 : Nat), part := true,
                   hasMore := true,
                   toolCall := some { callID := "call0", name := "fn",
                                      arguments := ta2 } } }] ∧
    (processChunk agent (some tok) 0
      (processChunk agent (some tok) 0 initState (c10chunk1 cr mo fp f1 ta1))
      (c10chunk2 id2 f2 ta2)).resp.choices =
      [{ index := 0,
         message := some { role := "assistant",
                           content := { text := some (f1 ++ f2) } },
         finishReason := none }] ∧
    tcLookup (processChunk agent (some tok) 0
      (processChunk agent (some tok) 0 initState (c10chunk1 cr mo fp f1 ta1))
      (c10chunk2 id2 f2 ta2)).toolCalls 0 =
      some { id := "call0", type := "function",
             function := { name := "fn", arguments := ta1 ++ ta2 } } := by
  refine ⟨?_, ?_, ?_, ?_, ?_, ?_⟩ <;>
    simp [processChunk, processChoice, processToolFragments, c10chunk1,
      c10chunk2, initState, sendProgress, modifyChoice, mergeFragment,
      tcLookup, tcAppendArgs, hid, List.find?]

/-- Witness for C10 at concrete fragments. -/
theorem c10_witness :
    (("i2" : String) ≠ "") ∧
    (processChunk "a" (some "tok") 0 initState
      (c10chunk1 0 "m" "f" "A" "x")).events = [] ∧
    (processChunk "a" (some "tok") 0
      (processChunk "a" (some "tok") 0 initState (c10chunk1 0 "m" "f" "A" "x"))
      (c10chunk2 "i2" "B" "y")).events =
      [{ model := "m", agent := "a", messageID := "i2",
         item := { id := "i2" ++ "-" ++ toString (0 : Nat), part := true,
                   hasMore := true,
                   content := some { type := "text", text := "B" } } },
       { model := "m", agent := "a", messageID := "i2",
         item := { id := "i2" ++ "-t-" ++ toString (0 : Nat), part := true,
                   hasMore := true,
                   toolCall := some { callID := "call0", name := "fn",
                                      arguments := "y" } } }] := by
  refine ⟨by decide, ?_, ?_⟩
  · exact (c10_no_events_while_id_empty "a" "tok" "A" "B" "x" "y" "i2" "m" "f"
      0 (by decide)).1
  · exact (c10_no_events_while_id_empty "a" "tok" "A" "B" "x" "y" "i2" "m" "f"
      0 (by decide)).2.2.2.1

end Completions

namespace Completions

/-- C4: an SSE stream whose first chunk carries a non-empty identifier,
with a progress token configured, delivering the content fragments
`"Hel"`, `"lo"`, `" world"` in three chunks followed by the `[DONE]`
sentinel, accumulates the text `"Hello world"` on choice 0 and emits
exactly three partial events whose payloads are the three fragments in
arrival order (never the running total), each with has-more set except
the one whose chunk carried a finish reason; the sentinel itself emits
nothing. -/
theorem c4_content_fragments (decode : String → Option StreamChunk)
    (agent mo fp tok cid : String) (cr : Int) (hid : cid ≠ "")
    (h1 : decode "a" = some (mkContentChunk cid cr mo fp "Hel" none))
    (h2 : decode "b" = some (mkContentChunk "" cr mo fp "lo" none))
    (h3 : decode "c" = some (mkContentChunk "" cr mo fp " world"
      (some "stop"))) :
    (runLines decode agent (some tok) 0 initState
      ["data: a", "data: b", "data: c", "data: [DONE]"]).resp.choices =
      [{ index := 0,
         message := some { role := "assistant",
                           content := { text := some "Hello world" } },
         finishReason := some "stop" }] ∧
    (runLines decode agent (some tok) 0 initState
      ["data: a", "data: b", "data: c", "data: [DONE]"]).events =
      [{ model := mo, agent := agent, messageID := cid,
         item := { id := cid ++ "-" ++ toString (0 : Nat), part := true,
                   hasMore := true,
                   content := some { type := "text", text := "Hel" } } },
       { model := mo, agent := agent, messageID := cid,
         item := { id := cid ++ "-" ++ toString (0 : Nat), part := true,
                   hasMore := true,
                   content := some { type := "text", text := "lo" } } },
       { model := mo, agent := agent, messageID := cid,
         item := { id := cid ++ "-" ++ toString (0 : Nat), part := true,
                   hasMore := false,
                   content := some { type := "text", text := " world" } } }] := by
  have hs : (("Hel" ++ "lo" : String) ++ " world") = "Hello world" := by decide
  rw [runLines_cons_chunk decode agent (some tok) 0 initState "data: a" _ _
        (by decide) (by decide) h1,
      runLines_cons_chunk decode agent (some tok) 0 _ "data: b" _ _
        (by decide) (by decide) h2,
      runLines_cons_chunk decode agent (some tok) 0 _ "data: c" _ _
        (by decide) (by decide) h3,
      runLines_cons_done decode agent (some tok) 0 _ "data: [DONE]" _
        (by decide) (by decide)]
  constructor <;>
    simp [processChunk, processChoice, processToolFragments, mkContentChunk,
      initState, sendProgress, modifyChoice, hid, hs]

/-- Witness for C4 with a concrete decoder and identifier. -/
theorem c4_witness :
    (("id4" : String) ≠ "" ∧
      c4decode "a" = some (mkContentChunk "id4" 0 "m" "f" "Hel" none) ∧
      c4decode "b" = some (mkContentChunk "" 0 "m" "f" "lo" none) ∧
      c4decode "c" = some (mkContentChunk "" 0 "m" "f" " world"
        (some "stop"))) ∧
    (runLines c4decode "a" (some "tok") 0 initState
      ["data: a", "data: b", "data: c", "data: [DONE]"]).resp.choices =
      [{ index := 0,
         message := some { role := "assistant",
                           content := { text := some "Hello world" } },
         finishReason := some "stop" }] := by
  refine ⟨⟨by decide, by decide, by decide, by decide⟩, ?_⟩
  exact (c4_content_fragments c4decode "a" "m" "f" "tok" "id4" 0 (by decide)
    (by decide) (by decide) (by decide)).1

end Completions

namespace Completions

theorem finalize_enum_lit (rid rob : String) (rcr : Int) (rmo rfp : String)
    (rus : Option Usage) (ci : Nat) (cf : Option String) (mr : String)
    (mc : MsgContent) (mrf : Option String) (tcs : List ToolCall)
    (ind : Bool) (evs : List CompletionProgress) :
    finalize
      { resp := { id := rid, object := rob, created := rcr, model := rmo,
                  systemFingerprint := rfp,
                  choices := [{ index := ci,
                                message := some { role := mr, content := mc,
                                                  toolCalls := [],
                                                  refusal := mrf },
                                finishReason := cf }],
                  usage := rus },
        inited := ind, toolCalls := List.enumFrom 0 tcs, events := evs } =
      some { id := rid, object := rob, created := rcr, model := rmo,
             systemFingerprint := rfp,
             choices := [{ index := ci,
                           message := some { role := mr, content := mc,
                                             toolCalls := tcs,
                                             refusal := mrf },
                           finishReason := cf }],
             usage := rus } := by
  exact finalize_enum
    { id := rid, object := rob, created := rcr, model := rmo,
      systemFingerprint := rfp,
      choices := [{ index := ci,
                    message := some { role := mr, content := mc,
                                      toolCalls := [], refusal := mrf },
                    finishReason := cf }],
      usage := rus }
    { index := ci,
      message := some { role := mr, content := mc, toolCalls := [],
                        refusal := mrf },
      finishReason := cf }
    []
    { role := mr, content := mc, toolCalls := [], refusal := mrf }
    tcs ind evs rfl rfl rfl

/-- C3 counterexample: a quirk chunk whose choice carries a finish
reason does not produce the same final response as the equivalent run
delivering the same role, text, tool calls and finish reason as an
ordinary delta — the quirk branch skips the finish-reason handling, so
the finish reason is dropped on the quirk side but recorded on the
delta side. -/
theorem c3_counterexample :
    finalize (runChunks "a" (some "tok") 0 initState
      [quirkChunk "id3" 1 "m" "f" quirkMsg (some "stop")]) ≠
    finalize (runChunks "a" (some "tok") 0 initState
      [deltaEquivChunk "id3" 1 "m" "f" quirkMsg (some "stop")]) := by
  decide

/-- C3 (amended): a quirk chunk (complete message in place of a delta,
with any finish reason) whose chunk identifier is non-empty and whose
message role is non-empty produces the same final response as the
equivalent ordinary-delta run in which no finish reason arrives, and
the quirk run emits exactly one non-partial event for the text plus one
non-partial event per tool call.  Each restriction excludes a real
divergence, exhibited by the last three conjuncts and the claim's
counterexample: the quirk branch drops the choice's finish reason, an
empty chunk identifier makes the quirk path synthesize an identifier
the delta run lacks, and an empty role is copied verbatim by the quirk
path while the delta run keeps the pre-created assistant role. -/
theorem c3_amended_quirk_equiv (cid mo fp agent tok t : String) (cr : Int)
    (m : Message) (fr : Option String)
    (hid : cid ≠ "") (hrole : m.role ≠ "")
    (htext : m.content.text = some t) :
    (finalize (runChunks agent (some tok) 0 initState
        [quirkChunk cid cr mo fp m fr]) =
      finalize (runChunks agent (some tok) 0 initState
        [deltaEquivChunk cid cr mo fp m none])) ∧
    (runChunks agent (some tok) 0 initState
        [quirkChunk cid cr mo fp m fr]).events =
      ({ model := mo, agent := agent, messageID := cid,
         item := { id := cid ++ "-" ++ toString (0 : Nat), part := false,
                   hasMore := false,
                   content := some { type := "text", text := t } } }
        : CompletionProgress) ::
      m.toolCalls.enum.map (fun p =>
        ({ model := mo, agent := agent, messageID := cid,
           item := { id := cid ++ "-t-" ++ toString p.1, part := false,
                     hasMore := false,
                     toolCall := some { callID := p.2.id,
                                        name := p.2.function.name,
                                        arguments := p.2.function.arguments } } }
          : CompletionProgress)) ∧
    (finalize (runChunks "a" (some "tok") 0 initState
        [quirkChunk "" 1 "m" "f" quirkMsg none]) ≠
      finalize (runChunks "a" (some "tok") 0 initState
        [deltaEquivChunk "" 1 "m" "f" quirkMsg none])) ∧
    (finalize (runChunks "a" (some "tok") 0 initState
        [quirkChunk "id3" 1 "m" "f" quirkMsgNoRole none]) ≠
      finalize (runChunks "a" (some "tok") 0 initState
        [deltaEquivChunk "id3" 1 "m" "f" quirkMsgNoRole none])) := by
  obtain ⟨mrole, mcont, mtcs, mref⟩ := m
  obtain ⟨mtext⟩ := mcont
  simp only at hrole htext
  subst htext
  refine ⟨?_, ?_, by decide, by decide⟩
  · cases mref with
    | none =>
      simp [runChunks, processChunk, processChoice, quirkChunk,
        deltaEquivChunk, initState, modifyChoice, sendProgress,
        foldl_sendProgress_some, hid, hrole, processToolFragments_enum,
        List.enum]
      rw [finalize_enum_lit]
      simp [finalize]
    | some r =>
      simp [runChunks, processChunk, processChoice, quirkChunk,
        deltaEquivChunk, initState, modifyChoice, sendProgress,
        foldl_sendProgress_some, hid, hrole, processToolFragments_enum,
        List.enum]
      rw [finalize_enum_lit]
      simp [finalize]
  · simp [runChunks, processChunk, processChoice, quirkChunk, initState,
      modifyChoice, sendProgress, foldl_sendProgress_some, hid, List.enum]

end Completions

namespace Completions

/-- Witness for the amended C3 at a concrete quirk message and finish
reason. -/
theorem c3_amended_witness :
    (("id3" : String) ≠ "" ∧ quirkMsg.role ≠ "" ∧
      quirkMsg.content.text = some "hi") ∧
    finalize (runChunks "a" (some "tok") 0 initState
        [quirkChunk "id3" 1 "m" "f" quirkMsg (some "stop")]) =
      finalize (runChunks "a" (some "tok") 0 initState
        [deltaEquivChunk "id3" 1 "m" "f" quirkMsg none]) := by
  refine ⟨⟨by decide, by decide, by decide⟩, ?_⟩
  exact (c3_amended_quirk_equiv "id3" "m" "f" "a" "tok" "hi" 1 quirkMsg
    (some "stop") (by decide) (by decide) (by decide)).1

end Completions
